import Mathlib

set_option linter.unusedVariables false
set_option maxRecDepth 8000

/-!
Verification of the gocrypt package (gocrypt.go).

The embedding below translates the source line by line:

* bytes are `List Nat` (each entry one byte);
* Go's `[]byte` values that may be `nil` are `Option (List Nat)`;
* the process entropy source (`crypto/rand.Reader`) is an explicit list of
  bytes passed through the functions; a read of `n` bytes fails exactly when
  fewer than `n` bytes remain, matching `io.ReadFull` returning an error,
  and a `make`-allocated buffer keeps its zero bytes where the read stopped;
* the external libraries `golang.org/x/crypto/scrypt` and `crypto/aes` /
  `crypto/cipher` (GCM) are modelled by idealized deterministic functions
  that keep the library contracts the package relies on: parameter
  validation, output lengths, key-size checking, the `nonce ‖ ciphertext ‖
  16-byte tag` layout, stream (xor) encryption, and tag verification before
  any plaintext is released;
* a Go runtime panic (out-of-range slice) is an explicit `panicked` outcome.
-/

namespace Gocrypt

/-- Byte sequences: each element is one byte. -/
abbrev Bytes := List Nat

/-- The error values surfaced by the package: a failed entropy read
(`io.ReadFull` on `crypto/rand.Reader`), an scrypt parameter rejection,
an AES key-size error (`aes.KeySizeError`), and the GCM open error
("message authentication failed"). -/
inductive GoError where
  | entropy
  | scryptParams
  | keySize
  | authFailed
  deriving DecidableEq

/-- The byte sequence of the hard-coded literal `"some password"` that the
source passes to `scrypt.Key` (gocrypt.go line 41) in place of the
caller-supplied passphrase. -/
def somePassword : Bytes :=
  [115, 111, 109, 101, 32, 112, 97, 115, 115, 119, 111, 114, 100]

/-- `n` is a power of two (the check `N&(N-1) == 0` used by scrypt). -/
def isPow2 (n : Nat) : Bool := n &&& (n - 1) == 0

/-- Accumulating fold over bytes, used by the idealized models of the
external cryptographic primitives. -/
def foldA (l : Bytes) : Nat :=
  l.foldl (fun a b => (a * 131 + b + 1) % 65521) 7

/-- A second accumulating fold, independent of `foldA`. -/
def foldB (l : Bytes) : Nat :=
  l.foldl (fun a b => (a * 137 + b + 1) % 65521) 11

/-- Idealized model of the scrypt output: a deterministic `keyLen`-byte
function of the password and the salt. -/
def scryptBytes (password salt : Bytes) (keyLen : Nat) : Bytes :=
  (List.range keyLen).map
    (fun i => (foldA password * 41 + foldB salt * 43 + i * 47 + 53) % 256)

/-- Model of `golang.org/x/crypto/scrypt.Key`: rejects invalid parameters
(`N` must be `> 1` and a power of two, `r*p < 2^30`) and otherwise returns
a deterministic `keyLen`-byte key derived from password and salt. -/
def scryptKey (password salt : Bytes) (N r p keyLen : Nat) :
    Except GoError Bytes :=
  if N ≤ 1 ∨ ¬ isPow2 N ∨ 2 ^ 30 ≤ r * p then .error .scryptParams
  else .ok (scryptBytes password salt keyLen)

/-- Model of `io.ReadFull(rand.Reader, b)` for a fresh zero-initialized
buffer of `n` bytes: returns (buffer, remaining entropy, error).  When the
source holds fewer than `n` bytes the read fails and the buffer keeps its
zero bytes past the point where the source was exhausted. -/
def readFullBytes (src : Bytes) (n : Nat) : Bytes × Bytes × Option GoError :=
  if n ≤ src.length then (src.take n, src.drop n, none)
  else (src ++ List.replicate (n - src.length) 0, [], some .entropy)

/-- gocrypt.go lines 21-29, `genSalt`: read `nByte` random bytes; on a read
error return `nil` and the error. -/
def genSalt (nByte : Nat) (src : Bytes) :
    Option Bytes × Bytes × Option GoError :=
  match readFullBytes src nByte with
  | (_, rest, some e) => (none, rest, some e)
  | (b, rest, none) => (some b, rest, none)

/-- Result of `createHash` (gocrypt.go lines 35-49): the salt (possibly
`nil`), the derived hash bytes (Go returns them as `string(dk)`, which is
byte-preserving), the error, and the remaining entropy. -/
structure HashResult where
  salt : Option Bytes
  hash : Bytes
  err : Option GoError
  rest : Bytes
  deriving DecidableEq

/-- gocrypt.go lines 41-47: call `scrypt.Key` with the hard-coded literal
`"some password"` (NOT the caller's passphrase), salt `nil` meaning empty,
and parameters N=32768, r=8, p=1, keyLen=32. -/
def hashWith (salt : Option Bytes) (src : Bytes) : HashResult :=
  match scryptKey somePassword (salt.getD []) 32768 8 1 32 with
  | .error e => ⟨salt, [], some e, src⟩
  | .ok dk => ⟨salt, dk, none, src⟩

/-- gocrypt.go lines 35-49, `createHash`: when the salt is `nil` generate a
fresh 16-byte salt, discarding any generation error (`salt, _ =
genSalt(16)` on line 38), then derive the key with `scrypt.Key`.  The
`pass` argument is never used by the source. -/
def createHash (salt : Option Bytes) (pass : String) (src : Bytes) :
    HashResult :=
  match salt with
  | some s => hashWith (some s) src
  | none => hashWith (genSalt 16 src).1 (genSalt 16 src).2.1

/-- Model of `aes.NewCipher`: succeeds exactly for 16-, 24- or 32-byte
keys (AES-128, AES-192, AES-256), otherwise `aes.KeySizeError`. -/
structure AESBlock where
  key : Bytes
  deriving DecidableEq

/-- `aes.NewCipher` key-size check. -/
def aesNewCipher (key : Bytes) : Except GoError AESBlock :=
  if key.length = 16 ∨ key.length = 24 ∨ key.length = 32 then .ok ⟨key⟩
  else .error .keySize

/-- Model of the GCM wrapper returned by `cipher.NewGCM`. -/
structure GCM where
  key : Bytes
  deriving DecidableEq

/-- `cipher.NewGCM` fails only for block ciphers whose block size is not
128 bits; AES always has a 16-byte block, so for an `AESBlock` it
succeeds. -/
def newGCM (b : AESBlock) : Except GoError GCM := .ok ⟨b.key⟩

/-- GCM standard nonce size: 12 bytes. -/
def nonceSize : Nat := 12

/-- GCM tag size: 16 bytes. -/
def tagSize : Nat := 16

/-- Idealized GCM keystream byte `i` for a given key and nonce. -/
def mixKS (key nonce : Bytes) (i : Nat) : Nat :=
  (foldA key * 3 + foldB nonce * 5 + i * 7 + 19) % 256

/-- CTR-style stream encryption: xor byte `j` of the input with keystream
byte `i + j`.  Xor is an involution, so the same function decrypts. -/
def xorStream (key nonce : Bytes) : Nat → Bytes → Bytes
  | _, [] => []
  | i, b :: bs => (b ^^^ mixKS key nonce i) :: xorStream key nonce (i + 1) bs

/-- Idealized GCM authentication tag: 16 bytes, a deterministic function of
key, nonce and ciphertext. -/
def gcmTag (key nonce ct : Bytes) : Bytes :=
  (List.range tagSize).map
    (fun i =>
      (foldA key * 17 + foldB nonce * 23 + foldA ct * 29 + i * 31 + 37) % 256)

/-- Model of `gcm.Seal(nil, nonce, plaintext, nil)`: the encrypted bytes
followed by the 16-byte tag. -/
def gcmSeal (key nonce pt : Bytes) : Bytes :=
  xorStream key nonce 0 pt ++ gcmTag key nonce (xorStream key nonce 0 pt)

/-- Model of `gcm.Open(nil, nonce, ct, nil)`: fail if the input is shorter
than the tag, verify the tag over the ciphertext body, and only then
decrypt; any mismatch yields the open error with no plaintext. -/
def gcmOpen (key nonce ct : Bytes) : Except GoError Bytes :=
  if ct.length < tagSize then .error .authFailed
  else
    if ct.drop (ct.length - tagSize) =
        gcmTag key nonce (ct.take (ct.length - tagSize)) then
      .ok (xorStream key nonce 0 (ct.take (ct.length - tagSize)))
    else .error .authFailed

/-- Result of `Encrypt` (gocrypt.go lines 63-87): ciphertext (`nil` on
error), salt (`nil` on error), error, and remaining entropy. -/
structure EncResult where
  ciphertext : Option Bytes
  salt : Option Bytes
  err : Option GoError
  rest : Bytes
  deriving DecidableEq

/-- gocrypt.go lines 63-87, `Encrypt`: derive hash with `nil` salt, build
AES and GCM, read a 12-byte nonce DISCARDING any read error (line 83,
`io.ReadFull(rand.Reader, nonce)` with no error check), then return
`gcm.Seal(nonce, nonce, data, nil)`, i.e. `nonce ++ sealed`, plus the
salt. -/
def Encrypt (data : Bytes) (pass : String) (src : Bytes) : EncResult :=
  match createHash none pass src with
  | ⟨_, _, some e, rest⟩ => ⟨none, none, some e, rest⟩
  | ⟨hsalt, hash, none, rest⟩ =>
    match aesNewCipher hash with
    | .error e => ⟨none, none, some e, rest⟩
    | .ok block =>
      match newGCM block with
      | .error e => ⟨none, none, some e, rest⟩
      | .ok gcm =>
        match readFullBytes rest nonceSize with
        | (nonce, rest2, _) =>
          ⟨some (nonce ++ gcmSeal gcm.key nonce data), hsalt, none, rest2⟩

/-- Outcome of `Decrypt`: a normal Go return `(plaintext, err)` where the
plaintext is `nil` on every error path, or a runtime panic. -/
inductive DecResult where
  | ret (plaintext : Option Bytes) (err : Option GoError)
  | panicked
  deriving DecidableEq

/-- gocrypt.go lines 101-131, `Decrypt`: re-derive the hash from the given
salt, build AES and GCM, split the blob as `data[:nonceSize]` /
`data[nonceSize:]` — which PANICS when the blob is shorter than
`nonceSize`, there is no length check in the source — then `gcm.Open`. -/
def Decrypt (data : Bytes) (salt : Option Bytes) (pass : String)
    (src : Bytes) : DecResult :=
  match createHash salt pass src with
  | ⟨_, _, some e, _⟩ => .ret none (some e)
  | ⟨_, hash, none, _⟩ =>
    match aesNewCipher hash with
    | .error e => .ret none (some e)
    | .ok block =>
      match newGCM block with
      | .error e => .ret none (some e)
      | .ok gcm =>
        if data.length < nonceSize then .panicked
        else
          match gcmOpen gcm.key (data.take nonceSize)
              (data.drop nonceSize) with
          | .error e => .ret none (some e)
          | .ok plaintext => .ret (some plaintext) none

/-- The 11 bytes of `"Hello World"`. -/
def helloWorld : Bytes := [72, 101, 108, 108, 111, 32, 87, 111, 114, 108, 100]

end Gocrypt

namespace Gocrypt

/-- The fixed scrypt parameters used by the source are valid, so
`scrypt.Key` succeeds and returns the 32-byte derived key. -/
theorem scryptKey_run (password s : Bytes) :
    scryptKey password s 32768 8 1 32 = .ok (scryptBytes password s 32) := by
  unfold scryptKey
  rw [if_neg (by decide)]

/-- The scrypt output has exactly `keyLen` bytes. -/
theorem scryptBytes_length (password s : Bytes) (keyLen : Nat) :
    (scryptBytes password s keyLen).length = keyLen := by
  simp [scryptBytes]

theorem hashWith_eq (salt : Option Bytes) (src : Bytes) :
    hashWith salt src =
      ⟨salt, scryptBytes somePassword (salt.getD []) 32, none, src⟩ := by
  unfold hashWith
  rw [scryptKey_run]

theorem createHash_some (s : Bytes) (pass : String) (src : Bytes) :
    createHash (some s) pass src =
      ⟨some s, scryptBytes somePassword s 32, none, src⟩ := by
  show hashWith (some s) src = _
  rw [hashWith_eq]
  rfl

theorem readFullBytes_ok (src : Bytes) (n : Nat) (h : n ≤ src.length) :
    readFullBytes src n = (src.take n, src.drop n, none) := by
  unfold readFullBytes
  rw [if_pos h]

theorem readFullBytes_fst_length (src : Bytes) (n : Nat) :
    (readFullBytes src n).1.length = n := by
  unfold readFullBytes
  by_cases h : n ≤ src.length
  · rw [if_pos h]
    simp [List.length_take, Nat.min_eq_left h]
  · rw [if_neg h]
    simp
    omega

theorem genSalt_ok (n : Nat) (src : Bytes) (h : n ≤ src.length) :
    genSalt n src = (some (src.take n), src.drop n, none) := by
  unfold genSalt
  rw [readFullBytes_ok src n h]

theorem createHash_none_ok (pass : String) (src : Bytes)
    (h : 16 ≤ src.length) :
    createHash none pass src =
      ⟨some (src.take 16), scryptBytes somePassword (src.take 16) 32, none,
        src.drop 16⟩ := by
  show hashWith (genSalt 16 src).1 (genSalt 16 src).2.1 = _
  rw [genSalt_ok 16 src h, hashWith_eq]
  rfl

theorem aesNewCipher_32 (key : Bytes) (h : key.length = 32) :
    aesNewCipher key = .ok ⟨key⟩ := by
  unfold aesNewCipher
  rw [if_pos (Or.inr (Or.inr h))]

theorem xorStream_length (key nonce : Bytes) (i : Nat) (l : Bytes) :
    (xorStream key nonce i l).length = l.length := by
  induction l generalizing i with
  | nil => rfl
  | cons b bs ih => simp [xorStream, ih]

theorem xorStream_invol (key nonce : Bytes) (i : Nat) (l : Bytes) :
    xorStream key nonce i (xorStream key nonce i l) = l := by
  induction l generalizing i with
  | nil => rfl
  | cons b bs ih =>
    simp [xorStream, ih]
    rw [Nat.xor_assoc, Nat.xor_self, Nat.xor_zero]

theorem gcmTag_length (key nonce ct : Bytes) :
    (gcmTag key nonce ct).length = tagSize := by
  simp [gcmTag]

/-- Opening a sealed payload with the same key and nonce verifies the tag
and recovers the plaintext. -/
theorem gcmOpen_gcmSeal (key nonce pt : Bytes) :
    gcmOpen key nonce (gcmSeal key nonce pt) = .ok pt := by
  unfold gcmOpen gcmSeal
  have hct : (xorStream key nonce 0 pt).length = pt.length :=
    xorStream_length key nonce 0 pt
  have htag := gcmTag_length key nonce (xorStream key nonce 0 pt)
  have hlen :
      (xorStream key nonce 0 pt ++
        gcmTag key nonce (xorStream key nonce 0 pt)).length =
      pt.length + tagSize := by
    simp [List.length_append, hct, htag]
  rw [if_neg (by omega)]
  have hidx :
      (xorStream key nonce 0 pt ++
        gcmTag key nonce (xorStream key nonce 0 pt)).length - tagSize =
      (xorStream key nonce 0 pt).length := by omega
  rw [hidx, List.take_left, List.drop_left]
  rw [if_pos rfl, xorStream_invol]

/-- Unfolding of `Encrypt` when the entropy source holds at least the 16
salt bytes: the call succeeds, the salt is the first 16 entropy bytes, and
the blob is the nonce followed by the sealed payload. -/
theorem Encrypt_ok (data : Bytes) (pass : String) (src : Bytes)
    (h : 16 ≤ src.length) :
    Encrypt data pass src =
      ⟨some ((readFullBytes (src.drop 16) nonceSize).1 ++
          gcmSeal (scryptBytes somePassword (src.take 16) 32)
            (readFullBytes (src.drop 16) nonceSize).1 data),
        some (src.take 16), none,
        (readFullBytes (src.drop 16) nonceSize).2.1⟩ := by
  unfold Encrypt
  rw [createHash_none_ok pass src h]
  rfl

/-- Unfolding of `Decrypt` with a non-nil salt: derive the key from that
salt, then split and open the blob (or panic when it is too short). -/
theorem Decrypt_some_eq (blob s : Bytes) (pass : String) (src : Bytes) :
    Decrypt blob (some s) pass src =
      if blob.length < nonceSize then .panicked
      else
        match gcmOpen (scryptBytes somePassword s 32) (blob.take nonceSize)
            (blob.drop nonceSize) with
        | .error e => .ret none (some e)
        | .ok plaintext => .ret (some plaintext) none := by
  unfold Decrypt
  rw [createHash_some]
  rfl

/-- Round trip with any decrypting passphrase: when `Encrypt` drew a real
16-byte salt, decrypting its blob with that salt recovers the plaintext,
whatever passphrase is supplied (the source never uses it). -/
theorem encrypt_decrypt_ok (P : Bytes) (W Wd : String) (srcE srcD : Bytes)
    (h : 16 ≤ srcE.length) :
    (Encrypt P W srcE).err = none ∧
    (Encrypt P W srcE).salt = some (srcE.take 16) ∧
    ∀ ct, (Encrypt P W srcE).ciphertext = some ct →
      Decrypt ct (some (srcE.take 16)) Wd srcD = .ret (some P) none := by
  rw [Encrypt_ok P W srcE h]
  refine ⟨rfl, rfl, ?_⟩
  intro ct hct
  simp only [Option.some.injEq] at hct
  subst hct
  set nn := (readFullBytes (srcE.drop 16) nonceSize).1 with hdef
  rw [Decrypt_some_eq]
  have hnl : nn.length = nonceSize := readFullBytes_fst_length _ _
  have hlen :
      (nn ++ gcmSeal (scryptBytes somePassword (srcE.take 16) 32)
          nn P).length =
      nonceSize + (P.length + tagSize) := by
    simp [gcmSeal, List.length_append, xorStream_length, gcmTag_length, hnl]
  rw [if_neg (by omega)]
  rw [← hnl, List.take_left, List.drop_left, gcmOpen_gcmSeal]

/-- An invariant of a successful `gcmOpen`: the returned plaintext seals
back to exactly the input ciphertext, so no garbage plaintext can be
produced. -/
theorem gcmOpen_ok_inv (key nonce ct pt : Bytes)
    (h : gcmOpen key nonce ct = .ok pt) :
    ct = gcmSeal key nonce pt := by
  unfold gcmOpen at h
  by_cases h1 : ct.length < tagSize
  · rw [if_pos h1] at h
    exact absurd h (by simp)
  · rw [if_neg h1] at h
    by_cases h2 : ct.drop (ct.length - tagSize) =
        gcmTag key nonce (ct.take (ct.length - tagSize))
    · rw [if_pos h2] at h
      obtain rfl : xorStream key nonce 0 (ct.take (ct.length - tagSize)) = pt := by
        simpa using h
      unfold gcmSeal
      rw [xorStream_invol, ← h2, List.take_append_drop]
    · rw [if_neg h2] at h
      exact absurd h (by simp)

/-- General unfolding of `createHash` with nil salt (no hypothesis on the
entropy source): the generation error is always discarded. -/
theorem createHash_none_eq (pass : String) (src : Bytes) :
    createHash none pass src =
      ⟨(genSalt 16 src).1,
        scryptBytes somePassword ((genSalt 16 src).1.getD []) 32, none,
        (genSalt 16 src).2.1⟩ := by
  show hashWith (genSalt 16 src).1 (genSalt 16 src).2.1 = _
  rw [hashWith_eq]

/-- General unfolding of `Encrypt`: it always reports success, whatever the
entropy source did. -/
theorem Encrypt_eq (data : Bytes) (pass : String) (src : Bytes) :
    Encrypt data pass src =
      ⟨some ((readFullBytes (genSalt 16 src).2.1 nonceSize).1 ++
          gcmSeal (scryptBytes somePassword ((genSalt 16 src).1.getD []) 32)
            (readFullBytes (genSalt 16 src).2.1 nonceSize).1 data),
        (genSalt 16 src).1, none,
        (readFullBytes (genSalt 16 src).2.1 nonceSize).2.1⟩ := by
  unfold Encrypt
  rw [createHash_none_eq]
  rfl

/-- All-or-nothing behaviour of `Decrypt` on blobs long enough not to hit
the missing length check: either an error with nil plaintext, or a
plaintext that seals back to exactly the input blob under the derived key
and the embedded nonce. -/
theorem decrypt_all_or_nothing (blob s : Bytes) (pass : String)
    (src : Bytes) (h : ¬ blob.length < nonceSize) :
    (∃ e, Decrypt blob (some s) pass src = .ret none (some e)) ∨
    ∃ pt, Decrypt blob (some s) pass src = .ret (some pt) none ∧
      blob = blob.take nonceSize ++
        gcmSeal (scryptBytes somePassword s 32) (blob.take nonceSize) pt := by
  rw [Decrypt_some_eq, if_neg h]
  cases hop : gcmOpen (scryptBytes somePassword s 32) (blob.take nonceSize)
      (blob.drop nonceSize) with
  | error e => exact .inl ⟨e, rfl⟩
  | ok pt =>
    refine .inr ⟨pt, rfl, ?_⟩
    have := gcmOpen_ok_inv _ _ _ _ hop
    rw [← this, List.take_append_drop]

/-- C1 (counterexample): the round-trip claim fails as stated.  With an
exhausted entropy source, `Encrypt [1,2,3] "pass1"` still reports success
(the salt-generation error is discarded at gocrypt.go line 38) and returns
a nil salt; decrypting its blob with that nil salt while the entropy
source works again re-derives a key from a fresh random salt, so
authentication fails instead of returning the plaintext. -/
theorem c1_counterexample :
    (Encrypt [1, 2, 3] "pass1" []).err = none ∧
    (Encrypt [1, 2, 3] "pass1" []).salt = none ∧
    Decrypt ((Encrypt [1, 2, 3] "pass1" []).ciphertext.getD [])
        ((Encrypt [1, 2, 3] "pass1" []).salt) "pass1" (List.range 16) =
      .ret none (some .authFailed) := by
  decide

/-- C1 (amended): for every plaintext P (including the empty one) and
passphrase W, if `Encrypt(P, W)` succeeds AND its internal random 16-byte
salt generation succeeded (the entropy source held at least 16 bytes),
then `Decrypt` of the returned blob with the returned salt and the same
passphrase succeeds and returns exactly P, whatever the entropy state at
decryption time. -/
theorem c1_round_trip (P : Bytes) (W : String) (srcE srcD ct : Bytes)
    (s : Option Bytes) (h16 : 16 ≤ srcE.length)
    (hct : (Encrypt P W srcE).ciphertext = some ct)
    (hs : (Encrypt P W srcE).salt = s) :
    Decrypt ct s W srcD = .ret (some P) none := by
  obtain ⟨-, hsalt, hdec⟩ := encrypt_decrypt_ok P W W srcE srcD h16
  have hse : s = some (srcE.take 16) := hs ▸ hsalt
  rw [hse]
  exact hdec ct hct

/-- C1 (witness for the amended round trip at a concrete input). -/
theorem c1_round_trip_witness :
    16 ≤ (List.range 16).length ∧
    Decrypt ((Encrypt [1, 2] "pw" (List.range 16)).ciphertext.getD [])
        ((Encrypt [1, 2] "pw" (List.range 16)).salt) "pw" [] =
      .ret (some [1, 2]) none :=
  ⟨by decide,
    c1_round_trip [1, 2] "pw" (List.range 16) []
      ((Encrypt [1, 2] "pw" (List.range 16)).ciphertext.getD [])
      ((Encrypt [1, 2] "pw" (List.range 16)).salt) (by decide) (by decide)
      rfl⟩

/-- C2: the key-derivation step ignores the caller-supplied passphrase
(gocrypt.go line 41 passes the literal "some password" to `scrypt.Key`),
so for every salt and every pair of passphrases `createHash` returns the
identical result, in particular the identical derived key. -/
theorem c2_passphrase_ignored (salt : Option Bytes) (w1 w2 : String)
    (src : Bytes) : createHash salt w1 src = createHash salt w2 src := rfl

/-- C3: evaluation at the failing inputs.  `Decrypt` performs the slice
`data[:nonceSize]` with no length check (gocrypt.go line 122), so a blob
shorter than the 12-byte nonce size makes it panic with a slice
out-of-range runtime error rather than return `MalformedBlobError`:
here the empty blob and an 11-byte blob. -/
theorem c3_short_blob_panics :
    Decrypt [] (some (List.replicate 16 0)) "pw" [] = .panicked ∧
    Decrypt (List.replicate 11 7) (some (List.replicate 16 0)) "pw" [] =
      .panicked := by
  decide

/-- C4 (counterexample): decrypting with a different passphrase does NOT
fail with an authentication error; because the derivation ignores the
passphrase, it succeeds and returns the original plaintext. -/
theorem c4_counterexample :
    ("pass1" : String) ≠ "pass2" ∧
    (Encrypt [7] "pass1" (List.range 28)).err = none ∧
    Decrypt ((Encrypt [7] "pass1" (List.range 28)).ciphertext.getD [])
        ((Encrypt [7] "pass1" (List.range 28)).salt) "pass2" [] =
      .ret (some [7]) none := by
  decide

/-- C4 (amended): for every plaintext and every pair of distinct
passphrases, if `Encrypt(P, W1)` succeeded with a real 16-byte salt, then
`Decrypt` of its blob and salt under the OTHER passphrase W2 also succeeds
and returns the original plaintext: the passphrase is a no-op in key
derivation, so no authentication failure occurs. -/
theorem c4_wrong_passphrase_decrypts (P : Bytes) (W1 W2 : String)
    (srcE srcD ct : Bytes) (s : Option Bytes) (hW : W1 ≠ W2)
    (h16 : 16 ≤ srcE.length)
    (hct : (Encrypt P W1 srcE).ciphertext = some ct)
    (hs : (Encrypt P W1 srcE).salt = s) :
    Decrypt ct s W2 srcD = .ret (some P) none := by
  obtain ⟨-, hsalt, hdec⟩ := encrypt_decrypt_ok P W1 W2 srcE srcD h16
  have hse : s = some (srcE.take 16) := hs ▸ hsalt
  rw [hse]
  exact hdec ct hct

/-- C4 (witness for the amended claim at a concrete input). -/
theorem c4_wrong_passphrase_decrypts_witness :
    (("a" : String) ≠ "b" ∧ 16 ≤ (List.range 16).length) ∧
    Decrypt ((Encrypt [3] "a" (List.range 16)).ciphertext.getD [])
        ((Encrypt [3] "a" (List.range 16)).salt) "b" [] =
      .ret (some [3]) none :=
  ⟨⟨by decide, by decide⟩,
    c4_wrong_passphrase_decrypts [3] "a" "b" (List.range 16) []
      ((Encrypt [3] "a" (List.range 16)).ciphertext.getD [])
      ((Encrypt [3] "a" (List.range 16)).salt) (by decide) (by decide)
      (by decide) rfl⟩

/-- C5: evaluation at the failing input.  The all-or-nothing guarantee is
violated by the missing blob-length check: on a 1-byte blob `Decrypt`
panics, returning neither a plaintext nor an error-with-nil-plaintext.
(On blobs of nonce length or more the guarantee does hold; see
`decrypt_all_or_nothing`.) -/
theorem c5_short_blob_no_return :
    Decrypt [5] (some (List.replicate 16 1)) "q" [] = .panicked := by
  decide

/-- C6: a successful `Encrypt` returns a blob of length exactly
12 + len(P) + 16 whose first 12 bytes are the nonce and whose remainder is
the sealed payload (ciphertext then 16-byte tag) under the derived key and
that nonce; in particular the 11-byte "Hello World" yields 39 bytes. -/
theorem c6_blob_layout :
    (∀ (data : Bytes) (pass : String) (src : Bytes),
      (Encrypt data pass src).err = none ∧
      ∃ ct, (Encrypt data pass src).ciphertext = some ct ∧
        ct.length = nonceSize + data.length + tagSize ∧
        ct.drop nonceSize =
          gcmSeal (createHash none pass src).hash (ct.take nonceSize)
            data) ∧
    ((Encrypt helloWorld "pass1" (List.range 28)).ciphertext.getD []).length
      = 39 := by
  constructor
  · intro data pass src
    rw [Encrypt_eq data pass src, createHash_none_eq]
    refine ⟨rfl, ?_⟩
    set nn := (readFullBytes (genSalt 16 src).2.1 nonceSize).1 with hdef
    have hnl : nn.length = nonceSize := readFullBytes_fst_length _ _
    refine ⟨_, rfl, ?_, ?_⟩
    · simp [gcmSeal, List.length_append, xorStream_length, gcmTag_length,
        hnl]
      omega
    · rw [← hnl, List.take_left, List.drop_left]
  · decide

/-- C7: key derivation is deterministic and 32 bytes long: with the same
salt and passphrase, `createHash` yields the identical derived key under
any entropy states, and that key has exactly 32 bytes (the scrypt
output-length parameter, with N=32768, r=8, p=1 fixed in the source). -/
theorem c7_derivation_deterministic (s : Bytes) (w : String)
    (src src' : Bytes) :
    (createHash (some s) w src).hash = (createHash (some s) w src').hash ∧
    (createHash (some s) w src).hash.length = 32 := by
  rw [createHash_some, createHash_some]
  exact ⟨rfl, scryptBytes_length _ _ _⟩

/-- C8: evaluation at the failing input.  With an exhausted entropy source
the salt generation fails, but `createHash` discards the error
(`salt, _ = genSalt(16)`, gocrypt.go line 38): it reports success (err is
none), returns a nil salt, and derives the key from an EMPTY salt instead
of failing with a key-derivation error. -/
theorem c8_salt_error_swallowed :
    (createHash none "pw" []).err = none ∧
    (createHash none "pw" []).salt = none ∧
    (createHash none "pw" []).hash = scryptBytes somePassword [] 32 := by
  decide

/-- C9: evaluation at the failing input.  With only 16 entropy bytes the
salt read succeeds but the 12-byte nonce read fails; `Encrypt` ignores the
error of `io.ReadFull(rand.Reader, nonce)` (gocrypt.go line 83), seals
with the zero-initialized nonce buffer, and reports success instead of a
random-source error. -/
theorem c9_nonce_error_swallowed :
    (Encrypt [1, 2] "pw" (List.range 16)).err = none ∧
    ((Encrypt [1, 2] "pw" (List.range 16)).ciphertext.getD []).take 12 =
      List.replicate 12 0 := by
  decide

/-- C10: whenever the scrypt derivation succeeds, the derived key is
exactly 32 bytes (the output-length argument at gocrypt.go line 41), so
`aes.NewCipher` accepts it (the key is in the AES-256 class) and the
key-size error branch in Encrypt and Decrypt is unreachable on that
path. -/
theorem c10_key_always_32 (salt : Option Bytes) (w : String) (src : Bytes)
    (h : (createHash salt w src).err = none) :
    (createHash salt w src).hash.length = 32 ∧
    aesNewCipher (createHash salt w src).hash =
      .ok ⟨(createHash salt w src).hash⟩ := by
  have hlen : (createHash salt w src).hash.length = 32 := by
    cases salt with
    | some s =>
      rw [createHash_some]
      exact scryptBytes_length _ _ _
    | none =>
      rw [createHash_none_eq]
      exact scryptBytes_length _ _ _
  exact ⟨hlen, aesNewCipher_32 _ hlen⟩

/-- C10 (witness at a concrete input). -/
theorem c10_key_always_32_witness :
    (createHash (some [1]) "x" []).err = none ∧
    ((createHash (some [1]) "x" []).hash.length = 32 ∧
      aesNewCipher (createHash (some [1]) "x" []).hash =
        .ok ⟨(createHash (some [1]) "x" []).hash⟩) :=
  ⟨by decide, c10_key_always_32 (some [1]) "x" [] (by decide)⟩

end Gocrypt
